import Mathlib

set_option maxRecDepth 8000

/- Verification of the buildd build-daemon core (buildd.py): key selection,
   package/version derivation, take-response parsing and polling, build
   outcome classification, upload retry, cleanup, and the main loop.
   Python strings are modelled as Lean Strings; the string operations the
   source uses (str.split with a single-character separator and maxsplit,
   str.startswith, float parsing of gpg timestamps) are defined over the
   underlying character lists so that every definition evaluates by kernel
   reduction.  Python float timestamps are modelled as integers: the gpg expiry
   fields are integral unix timestamps, and none of the specified properties
   depends on sub-second fractions of the reference time. -/

/-- Python exceptions that the modelled code can raise. -/
inductive Exc where
  | keyNotFound
  | configurationError
  | keyError
  | indexError
  | nameError
  | valueError
  | typeError
  | calledProcessError
  | fileNotFound
deriving DecidableEq

instance instDecEqExcept {ε α : Type} [DecidableEq ε] [DecidableEq α] :
    DecidableEq (Except ε α)
  | .error a, .error b =>
    if h : a = b then .isTrue (by rw [h]) else .isFalse (fun hc => h (by cases hc; rfl))
  | .error _, .ok _ => .isFalse (fun hc => Except.noConfusion hc)
  | .ok _, .error _ => .isFalse (fun hc => Except.noConfusion hc)
  | .ok a, .ok b =>
    if h : a = b then .isTrue (by rw [h]) else .isFalse (fun hc => h (by cases hc; rfl))

/-- Splits a character list on a single separator character, Python-style:
the result always has one more element than the number of separators. -/
def splitChar (sep : Char) : List Char → List (List Char)
  | [] => [[]]
  | c :: cs =>
    if c = sep then [] :: splitChar sep cs
    else
      match splitChar sep cs with
      | r :: rs => (c :: r) :: rs
      | [] => [[c]]

/-- Joins character lists with a separator character (inverse of splitChar). -/
def joinChar (sep : Char) : List (List Char) → List Char
  | [] => []
  | [x] => x
  | x :: y :: rest => x ++ sep :: joinChar sep (y :: rest)

/-- Python str.split(sep, maxsplit) for a single-character separator sep.
With maxsplit m the result has at most m+1 parts, the last part keeping the
remaining separators. -/
def pySplitC (s : String) (sep : Char) (maxsplit : Option Nat) : List String :=
  let parts := (splitChar sep s.data).map String.mk
  match maxsplit with
  | none => parts
  | some m =>
    if parts.length ≤ m + 1 then parts
    else parts.take m ++ [String.mk (joinChar sep ((splitChar sep s.data).drop m))]

/-- Python str.startswith for the line-type tests of the key listing parser. -/
def startsWithStr (s p : String) : Bool := p.data.isPrefixOf s.data

/-- Models email.utils.parseaddr (stdlib): for the display-name form
"Name <addr>" it extracts the text between the first angle brackets, and a
bare string is returned unchanged. -/
def parseaddrEmail (s : String) : String :=
  if s.data.contains '<' then
    String.mk (((s.data.dropWhile (fun c => c ≠ '<')).drop 1).takeWhile (fun c => c ≠ '>'))
  else s

/-- Digit-string to Nat, None on any non-digit character. -/
def parseNatDigits (cs : List Char) : Option Nat :=
  cs.foldl
    (fun acc c =>
      match acc with
      | none => none
      | some n => if c.isDigit then some (n * 10 + (c.toNat - 48)) else none)
    (some 0)

/-- Models Python float() on the unsigned integer unix timestamps that gpg
emits in its colon-delimited listings; none models the ValueError raised on
an empty or non-numeric field. -/
def parseFloat? (s : String) : Option Int :=
  match s.data with
  | [] => none
  | _ => (parseNatDigits s.data).map (fun n => (n : Int))

/-- The Key value built by _pick_gpg_key: key id, remaining lifetime
(expiry timestamp minus the reference time), and the email attached from a
uid record. -/
structure Key where
  keyid : String
  expiry : Int
  email : Option String
deriving DecidableEq

/-- Entry value of the keys dictionary inside _pick_gpg_key. -/
structure KeyR where
  expiry : Int
  email : Option String
deriving DecidableEq

/-- The keys dictionary of _pick_gpg_key, as an insertion-ordered
association list (Python dicts preserve insertion order). -/
abbrev KeysAssoc := List (String × KeyR)

/-- Dictionary lookup. -/
def alookupK : KeysAssoc → String → Option KeyR
  | [], _ => none
  | e :: es, kid => if e.1 = kid then some e.2 else alookupK es kid

/-- Dictionary membership test. -/
def containsK (ks : KeysAssoc) (kid : String) : Bool := (alookupK ks kid).isSome

/-- Dictionary assignment: replaces the value in place when the key is
present, appends at the end otherwise. -/
def aset : KeysAssoc → String → KeyR → KeysAssoc
  | [], kid, v => [(kid, v)]
  | e :: es, kid, v => if e.1 = kid then (kid, v) :: es else e :: aset es kid v

/-- The email-field mutation keys[last_keyid].email = address. -/
def aupdEmail : KeysAssoc → String → String → KeysAssoc
  | [], _, _ => []
  | e :: es, kid, em =>
    if e.1 = kid then (e.1, ⟨e.2.expiry, some em⟩) :: es else e :: aupdEmail es kid em

/-- Loop state of _pick_gpg_key: the keys dictionary and last_keyid. -/
structure PickState where
  keys : KeysAssoc
  lastKeyid : Option String
deriving DecidableEq

/-- Python truthiness of the Optional[str] last_keyid. -/
def optStrTruthy : Option String → Bool
  | none => false
  | some s => !(s == "")

/-- Line-type test line.startswith("uid:"). -/
def isUidLine (l : String) : Bool := startsWithStr l "uid:"

/-- Line-type test line.startswith("sec:"). -/
def isSecLine (l : String) : Bool := startsWithStr l "sec:"

/-- The uid branch field extraction line.split(":", 10)[9] followed by
email.utils.parseaddr; none models the IndexError on a short line. -/
def uidEmail? (l : String) : Option String :=
  ((pySplitC l ':' (some 10)).get? 9).map parseaddrEmail

/-- The sec branch field extraction parts = line.split(":", 7);
keyid = parts[4], expires = parts[6]; none models the IndexError. -/
def secFields? (l : String) : Option (String × String) :=
  match (pySplitC l ':' (some 7)).get? 4, (pySplitC l ':' (some 7)).get? 6 with
  | some kid, some ex => some (kid, ex)
  | _, _ => none

/-- One iteration of the line loop of _pick_gpg_key (buildd.py lines
125-141): a uid record updates the email of the most recently accepted key;
a sec record is rejected when it is expired or expires within 24 hours, and
otherwise inserted with its remaining lifetime. -/
def processLine (t : Int) (st : PickState) (l : String) : Except Exc PickState :=
  if isUidLine l && optStrTruthy st.lastKeyid then
    match st.lastKeyid with
    | none => .error Exc.keyError
    | some kid =>
      match uidEmail? l with
      | none => .error Exc.indexError
      | some em =>
        if containsK st.keys kid then .ok ⟨aupdEmail st.keys kid em, st.lastKeyid⟩
        else .error Exc.keyError
  else if !(isSecLine l) then .ok st
  else
    match secFields? l with
    | none => .error Exc.indexError
    | some (kid, exS) =>
      match parseFloat? exS with
      | none => .error Exc.valueError
      | some ex =>
        if t + 24 * 60 * 60 > ex then .ok st
        else .ok ⟨aset st.keys kid ⟨ex - t, none⟩, some kid⟩

/-- The full line loop. -/
def processLines (t : Int) (st : PickState) : List String → Except Exc PickState
  | [] => .ok st
  | l :: ls =>
    match processLine t st l with
    | .ok st₁ => processLines t st₁ ls
    | .error e => .error e

/-- Python min with first-minimum tie-breaking, folded over the tail. -/
def pyMinFold (best : String × KeyR) : KeysAssoc → String × KeyR
  | [] => best
  | x :: xs => pyMinFold (if x.2.expiry < best.2.expiry then x else best) xs

/-- min(keys, key=lambda k: keys[k].expiry) over the insertion-ordered
dictionary, none when the dictionary is empty. -/
def pyMinKeys : KeysAssoc → Option (String × KeyR)
  | [] => none
  | e :: es => some (pyMinFold e es)

/-- keylist.splitlines() for the newline-separated gpg listing. -/
def keylines (keylist : String) : List String := pySplitC keylist '\n' none

/-- The key-selection operation _pick_gpg_key (buildd.py lines 111-145) on
an explicit listing and reference time t (the source reads time.time()):
processes the listing, raises KeyNotFoundError when no key survives the
24-hour filter, and otherwise returns the surviving key with the smallest
remaining lifetime. -/
def pickGpgKey (keylist : String) (t : Int) : Except Exc Key :=
  match processLines t ⟨[], none⟩ (keylines keylist) with
  | .error e => .error e
  | .ok st =>
    match pyMinKeys st.keys with
    | none => .error Exc.keyNotFound
    | some (kid, kr) => .ok ⟨kid, kr.expiry, kr.email⟩


/-- Spec-side classifier for one listing line: some (keyid, remaining) when
the line is a secret-key record that _pick_gpg_key accepts at reference time
t (parseable and expiring no sooner than 24 hours after t), none otherwise. -/
def secAccept (t : Int) (l : String) : Option (String × Int) :=
  if isSecLine l then
    match secFields? l with
    | some (kid, exS) =>
      match parseFloat? exS with
      | some ex => if t + 24 * 60 * 60 > ex then none else some (kid, ex - t)
      | none => none
    | none => none
  else none

/-- The qualifying secret-key records of a listing, in listing order, as
(keyid, remaining lifetime) pairs. -/
def acceptedRecs (t : Int) (lines : List String) : List (String × Int) :=
  lines.filterMap (secAccept t)

/-- Projection of the loop: the final value of last_keyid. -/
def projLast (t : Int) : Option String → List String → Option String
  | lk, [] => lk
  | lk, l :: ls =>
    if isUidLine l && optStrTruthy lk then projLast t lk ls
    else
      match secAccept t l with
      | some (kid, _) => projLast t (some kid) ls
      | none => projLast t lk ls

/-- Projection of the loop onto a single dictionary entry: how the entry for
kid evolves over the listing lines, given the current entry and last_keyid. -/
def projKeys (t : Int) (kid : String) :
    Option KeyR → Option String → List String → Option KeyR
  | cur, _, [] => cur
  | cur, lk, l :: ls =>
    if isUidLine l && optStrTruthy lk then
      projKeys t kid
        (if lk = some kid then
          cur.map (fun kr => ⟨kr.expiry, some ((uidEmail? l).getD "")⟩)
         else cur)
        lk ls
    else
      match secAccept t l with
      | some (k', e) =>
        projKeys t kid (if k' = kid then some ⟨e, none⟩ else cur) (some k') ls
      | none => projKeys t kid cur lk ls

/-- Email attribution as the code performs it (the amended claim): the email
of the most recent identity record seen while kid is the most recently
accepted key, which may be an identity record of a later rejected key. -/
def amendedEmailAux (t : Int) (kid : String) :
    Option String → Option String → List String → Option String
  | _, acc, [] => acc
  | lk, acc, l :: ls =>
    if isUidLine l && optStrTruthy lk then
      amendedEmailAux t kid lk
        (if lk = some kid then some ((uidEmail? l).getD "") else acc) ls
    else
      match secAccept t l with
      | some (k', _) => amendedEmailAux t kid (some k') (if k' = kid then none else acc) ls
      | none => amendedEmailAux t kid lk acc ls

/-- Email attribution for a whole listing. -/
def amendedEmail (t : Int) (keylist : String) (kid : String) : Option String :=
  amendedEmailAux t kid none none (keylines keylist)

/-- Keyid of any secret-key record line, qualifying or not. -/
def secKeyid? (l : String) : Option String :=
  if isSecLine l then (pySplitC l ':' (some 7)).get? 4 else none

/-- Email attribution as the original claim words it: the most recent
identity record that follows the given secret-key record before the next
secret-key record of the listing, whether or not the neighbouring records
qualify. -/
def associatedEmailAux (kid : String) :
    Option String → Option String → List String → Option String
  | _, acc, [] => acc
  | cur, acc, l :: ls =>
    match secKeyid? l with
    | some k' => associatedEmailAux kid (some k') acc ls
    | none =>
      if isUidLine l && (cur == some kid) then
        associatedEmailAux kid cur
          (match uidEmail? l with | some em => some em | none => acc) ls
      else associatedEmailAux kid cur acc ls

/-- Email of the identity records associated with a key record, per the
original claim reading. -/
def associatedEmailSpec (lines : List String) (kid : String) : Option String :=
  associatedEmailAux kid none none lines

theorem alookupK_aset_self (ks : KeysAssoc) (kid : String) (v : KeyR) :
    alookupK (aset ks kid v) kid = some v := by
  induction ks with
  | nil => simp [aset, alookupK]
  | cons e es ih =>
    obtain ⟨k0, v0⟩ := e
    by_cases h : k0 = kid
    · simp [aset, h, alookupK]
    · simp [aset, h, alookupK, ih]

theorem alookupK_aset_ne (ks : KeysAssoc) (kid k' : String) (v : KeyR) (h : k' ≠ kid) :
    alookupK (aset ks kid v) k' = alookupK ks k' := by
  induction ks with
  | nil => simp [aset, alookupK, Ne.symm h]
  | cons e es ih =>
    obtain ⟨k0, v0⟩ := e
    by_cases he : k0 = kid
    · subst he
      simp [aset, alookupK, Ne.symm h]
    · by_cases he' : k0 = k' <;> simp [aset, alookupK, he, he', ih, h]

theorem alookupK_aupd_self (ks : KeysAssoc) (kid em : String) :
    alookupK (aupdEmail ks kid em) kid =
      (alookupK ks kid).map (fun kr => ⟨kr.expiry, some em⟩) := by
  induction ks with
  | nil => simp [aupdEmail, alookupK]
  | cons e es ih =>
    obtain ⟨k0, v0⟩ := e
    by_cases h : k0 = kid
    · simp [aupdEmail, h, alookupK]
    · simp [aupdEmail, h, alookupK, ih]

theorem alookupK_aupd_ne (ks : KeysAssoc) (kid k' em : String) (h : k' ≠ kid) :
    alookupK (aupdEmail ks kid em) k' = alookupK ks k' := by
  induction ks with
  | nil => simp [aupdEmail]
  | cons e es ih =>
    obtain ⟨k0, v0⟩ := e
    by_cases he : k0 = kid
    · subst he
      simp [aupdEmail, alookupK, Ne.symm h]
    · by_cases he' : k0 = k' <;> simp [aupdEmail, alookupK, he, he', ih, h]

theorem alookupK_mem (ks : KeysAssoc) (kid : String) (kr : KeyR)
    (h : alookupK ks kid = some kr) : (kid, kr) ∈ ks := by
  induction ks with
  | nil => simp [alookupK] at h
  | cons e es ih =>
    obtain ⟨k0, v0⟩ := e
    by_cases he : k0 = kid
    · subst he
      simp [alookupK] at h
      subst h
      exact List.mem_cons_self _ _
    · simp [alookupK, he] at h
      exact List.mem_cons_of_mem _ (ih h)

theorem mem_alookupK (ks : KeysAssoc) (kid : String) (kr : KeyR)
    (hnd : (ks.map Prod.fst).Nodup) (h : (kid, kr) ∈ ks) : alookupK ks kid = some kr := by
  induction ks with
  | nil => simp at h
  | cons e es ih =>
    obtain ⟨k0, v0⟩ := e
    rcases List.mem_cons.mp h with h1 | h1
    · cases h1
      simp [alookupK]
    · rw [List.map_cons] at hnd
      have hnd2 := List.nodup_cons.mp hnd
      have hne : k0 ≠ kid := by
        intro hc
        subst hc
        have hm : k0 ∈ es.map Prod.fst := List.mem_map.mpr ⟨(k0, kr), h1, rfl⟩
        exact hnd2.1 hm
      simp [alookupK, hne]
      exact ih hnd2.2 h1

theorem aset_map_fst (ks : KeysAssoc) (kid : String) (v : KeyR) :
    (aset ks kid v).map Prod.fst =
      if kid ∈ ks.map Prod.fst then ks.map Prod.fst else ks.map Prod.fst ++ [kid] := by
  induction ks with
  | nil => simp [aset]
  | cons e es ih =>
    obtain ⟨k0, v0⟩ := e
    by_cases h : k0 = kid
    · simp [aset, h]
    · have h2 : ¬ kid = k0 := fun hc => h hc.symm
      by_cases hm : kid ∈ es.map Prod.fst <;> simp [aset, h, ih, h2, hm]

theorem aset_nodup (ks : KeysAssoc) (kid : String) (v : KeyR)
    (hnd : (ks.map Prod.fst).Nodup) : ((aset ks kid v).map Prod.fst).Nodup := by
  rw [aset_map_fst]
  by_cases hm : kid ∈ ks.map Prod.fst
  · simpa [hm] using hnd
  · simp only [hm, if_false]
    rw [List.nodup_append]
    exact ⟨hnd, List.nodup_singleton kid, by
      intro a ha hb
      have : a = kid := by simpa using hb
      exact hm (this ▸ ha)⟩

theorem aupd_map_fst (ks : KeysAssoc) (kid em : String) :
    (aupdEmail ks kid em).map Prod.fst = ks.map Prod.fst := by
  induction ks with
  | nil => simp [aupdEmail]
  | cons e es ih =>
    obtain ⟨k0, v0⟩ := e
    by_cases h : k0 = kid <;> simp [aupdEmail, h, ih]

theorem isUid_not_isSec (l : String) (h : isUidLine l = true) : isSecLine l = false := by
  unfold isUidLine startsWithStr at h
  unfold isSecLine startsWithStr
  have hu : ("uid:" : String).data = ['u', 'i', 'd', ':'] := rfl
  have hs : ("sec:" : String).data = ['s', 'e', 'c', ':'] := rfl
  rw [hu] at h
  rw [hs]
  cases hd : l.data with
  | nil => rw [hd] at h; simp [List.isPrefixOf] at h
  | cons c cs =>
    rw [hd] at h
    simp [List.isPrefixOf] at h ⊢
    intro hc
    exact absurd (hc.trans h.1.symm) (by decide)

theorem isUid_secAccept (t : Int) (l : String) (h : isUidLine l = true) :
    secAccept t l = none := by
  unfold secAccept
  rw [isUid_not_isSec l h]
  simp

theorem isSec_false_secAccept (t : Int) (l : String) (h : isSecLine l = false) :
    secAccept t l = none := by
  unfold secAccept
  rw [h]
  simp

theorem projLast_cons_true (t : Int) (lk : Option String) (l : String) (ls : List String)
    (h : (isUidLine l && optStrTruthy lk) = true) :
    projLast t lk (l :: ls) = projLast t lk ls := by
  simp only [projLast]
  rw [if_pos h]

theorem projLast_cons_false (t : Int) (lk : Option String) (l : String) (ls : List String)
    (h : (isUidLine l && optStrTruthy lk) = false) :
    projLast t lk (l :: ls) =
      match secAccept t l with
      | some (kid, _) => projLast t (some kid) ls
      | none => projLast t lk ls := by
  simp only [projLast]
  rw [if_neg (by simp [h])]

theorem projKeys_cons_true (t : Int) (kid : String) (cur : Option KeyR) (lk : Option String)
    (l : String) (ls : List String) (h : (isUidLine l && optStrTruthy lk) = true) :
    projKeys t kid cur lk (l :: ls) =
      projKeys t kid
        (if lk = some kid then
          cur.map (fun kr => ⟨kr.expiry, some ((uidEmail? l).getD "")⟩)
         else cur) lk ls := by
  simp only [projKeys]
  rw [if_pos h]

theorem projKeys_cons_false (t : Int) (kid : String) (cur : Option KeyR) (lk : Option String)
    (l : String) (ls : List String) (h : (isUidLine l && optStrTruthy lk) = false) :
    projKeys t kid cur lk (l :: ls) =
      match secAccept t l with
      | some (k', e) =>
        projKeys t kid (if k' = kid then some ⟨e, none⟩ else cur) (some k') ls
      | none => projKeys t kid cur lk ls := by
  simp only [projKeys]
  rw [if_neg (by simp [h])]

theorem amendedEmailAux_cons_true (t : Int) (kid : String) (lk acc : Option String)
    (l : String) (ls : List String) (h : (isUidLine l && optStrTruthy lk) = true) :
    amendedEmailAux t kid lk acc (l :: ls) =
      amendedEmailAux t kid lk
        (if lk = some kid then some ((uidEmail? l).getD "") else acc) ls := by
  simp only [amendedEmailAux]
  rw [if_pos h]

theorem amendedEmailAux_cons_false (t : Int) (kid : String) (lk acc : Option String)
    (l : String) (ls : List String) (h : (isUidLine l && optStrTruthy lk) = false) :
    amendedEmailAux t kid lk acc (l :: ls) =
      match secAccept t l with
      | some (k', _) => amendedEmailAux t kid (some k') (if k' = kid then none else acc) ls
      | none => amendedEmailAux t kid lk acc ls := by
  simp only [amendedEmailAux]
  rw [if_neg (by simp [h])]

theorem processLine_ok_cases (t : Int) (st : PickState) (l : String) (st₁ : PickState)
    (h : processLine t st l = .ok st₁) :
    ((isUidLine l && optStrTruthy st.lastKeyid) = true ∧ secAccept t l = none ∧
      ∃ kid em, st.lastKeyid = some kid ∧ uidEmail? l = some em ∧
        containsK st.keys kid = true ∧
        st₁.keys = aupdEmail st.keys kid em ∧ st₁.lastKeyid = st.lastKeyid) ∨
    ((isUidLine l && optStrTruthy st.lastKeyid) = false ∧ secAccept t l = none ∧
      st₁.keys = st.keys ∧ st₁.lastKeyid = st.lastKeyid) ∨
    ((isUidLine l && optStrTruthy st.lastKeyid) = false ∧
      ∃ kid e, secAccept t l = some (kid, e) ∧
        st₁.keys = aset st.keys kid ⟨e, none⟩ ∧ st₁.lastKeyid = some kid) := by
  unfold processLine at h
  split at h
  next hb =>
    have huid : isUidLine l = true := by
      have := hb
      simp [Bool.and_eq_true] at this
      exact this.1
    split at h
    next => exact Except.noConfusion h
    next kid heq =>
      split at h
      next => exact Except.noConfusion h
      next em hue =>
        split at h
        next hc =>
          cases h
          exact Or.inl ⟨hb, isUid_secAccept t l huid, kid, em, heq, hue, hc, rfl, rfl⟩
        next => exact Except.noConfusion h
  next hb =>
    have hb2 : (isUidLine l && optStrTruthy st.lastKeyid) = false := by
      revert hb
      cases (isUidLine l && optStrTruthy st.lastKeyid) <;> simp
    split at h
    next hs =>
      have hsec : isSecLine l = false := by
        revert hs
        cases isSecLine l <;> simp
      cases h
      exact Or.inr (Or.inl ⟨hb2, isSec_false_secAccept t l hsec, rfl, rfl⟩)
    next hs =>
      have hsec : isSecLine l = true := by
        revert hs
        cases isSecLine l <;> simp
      split at h
      next => exact Except.noConfusion h
      next kid exS hsf =>
        split at h
        next => exact Except.noConfusion h
        next ex hpf =>
          split at h
          next hlt =>
            cases h
            exact Or.inr (Or.inl ⟨hb2, by simp [secAccept, hsec, hsf, hpf]; omega, rfl, rfl⟩)
          next hlt =>
            cases h
            exact Or.inr (Or.inr ⟨hb2, kid, ex - t,
              by simp [secAccept, hsec, hsf, hpf]; omega, rfl, rfl⟩)

theorem processLines_proj (t : Int) :
    ∀ (lines : List String) (st st' : PickState),
      processLines t st lines = .ok st' →
      st'.lastKeyid = projLast t st.lastKeyid lines ∧
      ∀ kid, alookupK st'.keys kid = projKeys t kid (alookupK st.keys kid) st.lastKeyid lines := by
  intro lines
  induction lines with
  | nil =>
    intro st st' h
    cases h
    simp [projLast, projKeys]
  | cons l ls ih =>
    intro st st' h
    rw [processLines] at h
    cases hp : processLine t st l with
    | error e => rw [hp] at h; exact Except.noConfusion h
    | ok st₁ =>
      rw [hp] at h
      obtain ⟨ihl, ihk⟩ := ih _ _ h
      rcases processLine_ok_cases t st l st₁ hp with
        ⟨hb, hsa, kid, em, hlk, hue, hct, hk1, hk2⟩ | ⟨hb, hsa, hk1, hk2⟩ |
        ⟨hb, kid, e, hsa, hk1, hk2⟩
      · constructor
        · rw [ihl, hk2, projLast_cons_true t _ l ls hb]
        · intro kid'
          rw [ihk kid', hk1, hk2, projKeys_cons_true t kid' _ _ l ls hb]
          congr 1
          rw [hlk]
          by_cases hkk : kid = kid'
          · subst hkk
            rw [if_pos rfl, alookupK_aupd_self, hue]
            rfl
          · rw [if_neg (fun hc => hkk (Option.some.inj hc))]
            exact alookupK_aupd_ne st.keys kid kid' em (fun hc => hkk hc.symm)
      · constructor
        · rw [ihl, hk2, projLast_cons_false t _ l ls hb]
          simp only [hsa]
        · intro kid'
          rw [ihk kid', hk1, hk2, projKeys_cons_false t kid' _ _ l ls hb]
          simp only [hsa]
      · constructor
        · rw [ihl, hk2, projLast_cons_false t _ l ls hb]
          simp only [hsa]
        · intro kid'
          rw [ihk kid', hk1, hk2, projKeys_cons_false t kid' _ _ l ls hb]
          simp only [hsa]
          by_cases hkk : kid = kid'
          · subst hkk
            rw [if_pos rfl, alookupK_aset_self]
          · rw [if_neg hkk]
            rw [alookupK_aset_ne st.keys kid kid' _ (fun hc => hkk hc.symm)]

theorem acceptedRecs_cons_none (t : Int) (l : String) (ls : List String)
    (h : secAccept t l = none) : acceptedRecs t (l :: ls) = acceptedRecs t ls := by
  simp [acceptedRecs, h]

theorem acceptedRecs_cons_some (t : Int) (l : String) (ls : List String) (p : String × Int)
    (h : secAccept t l = some p) : acceptedRecs t (l :: ls) = p :: acceptedRecs t ls := by
  simp [acceptedRecs, h]

theorem map_email_expiry (cur : Option KeyR) (em : Option String) (kr₀ : KeyR)
    (h : cur.map (fun kr => (⟨kr.expiry, em⟩ : KeyR)) = some kr₀) :
    ∃ kr₁, cur = some kr₁ ∧ kr₁.expiry = kr₀.expiry := by
  cases cur with
  | none => simp at h
  | some kr₁ =>
    simp at h
    exact ⟨kr₁, rfl, by rw [← h]⟩

theorem projKeys_expiry_src (t : Int) (kid : String) :
    ∀ (lines : List String) (cur : Option KeyR) (lk : Option String) (kr : KeyR),
      projKeys t kid cur lk lines = some kr →
      (∃ kr₀, cur = some kr₀ ∧ kr₀.expiry = kr.expiry) ∨
      (kid, kr.expiry) ∈ acceptedRecs t lines := by
  intro lines
  induction lines with
  | nil =>
    intro cur lk kr h
    exact Or.inl ⟨kr, h, rfl⟩
  | cons l ls ih =>
    intro cur lk kr h
    by_cases hb : (isUidLine l && optStrTruthy lk) = true
    · have huid : isUidLine l = true := by
        have := hb
        simp [Bool.and_eq_true] at this
        exact this.1
      rw [projKeys_cons_true t kid cur lk l ls hb] at h
      rw [acceptedRecs_cons_none t l ls (isUid_secAccept t l huid)]
      rcases ih _ _ _ h with ⟨kr₀, hc, he⟩ | hm
      · by_cases hk : lk = some kid
        · rw [if_pos hk] at hc
          obtain ⟨kr₁, hc1, he1⟩ := map_email_expiry cur _ kr₀ hc
          exact Or.inl ⟨kr₁, hc1, he1.trans he⟩
        · rw [if_neg hk] at hc
          exact Or.inl ⟨kr₀, hc, he⟩
      · exact Or.inr hm
    · have hb2 : (isUidLine l && optStrTruthy lk) = false := by
        revert hb
        cases (isUidLine l && optStrTruthy lk) <;> simp
      rw [projKeys_cons_false t kid cur lk l ls hb2] at h
      cases hsa : secAccept t l with
      | none =>
        simp only [hsa] at h
        rw [acceptedRecs_cons_none t l ls hsa]
        exact ih _ _ _ h
      | some p =>
        obtain ⟨k', e⟩ := p
        simp only [hsa] at h
        rw [acceptedRecs_cons_some t l ls _ hsa]
        rcases ih _ _ _ h with ⟨kr₀, hc, he⟩ | hm
        · by_cases hk : k' = kid
          · subst hk
            rw [if_pos rfl] at hc
            have : kr₀.expiry = e := by
              cases hc
              rfl
            right
            rw [← he, this]
            exact List.mem_cons_self _ _
          · rw [if_neg hk] at hc
            exact Or.inl ⟨kr₀, hc, he⟩
        · exact Or.inr (List.mem_cons_of_mem _ hm)

theorem projKeys_some_of_some (t : Int) (kid : String) :
    ∀ (lines : List String) (kr₀ : KeyR) (lk : Option String),
      (projKeys t kid (some kr₀) lk lines).isSome = true := by
  intro lines
  induction lines with
  | nil => intros; rfl
  | cons l ls ih =>
    intro kr₀ lk
    by_cases hb : (isUidLine l && optStrTruthy lk) = true
    · rw [projKeys_cons_true t kid _ lk l ls hb]
      by_cases hk : lk = some kid
      · rw [if_pos hk]
        exact ih _ _
      · rw [if_neg hk]
        exact ih _ _
    · have hb2 : (isUidLine l && optStrTruthy lk) = false := by
        revert hb
        cases (isUidLine l && optStrTruthy lk) <;> simp
      rw [projKeys_cons_false t kid _ lk l ls hb2]
      cases hsa : secAccept t l with
      | none =>
        simp only [hsa]
        exact ih _ _
      | some p =>
        obtain ⟨k', e⟩ := p
        simp only [hsa]
        by_cases hk : k' = kid
        · rw [if_pos hk]
          exact ih _ _
        · rw [if_neg hk]
          exact ih _ _

theorem projKeys_some_of_mem (t : Int) (kid : String) :
    ∀ (lines : List String) (cur : Option KeyR) (lk : Option String) (e : Int),
      (kid, e) ∈ acceptedRecs t lines →
      (projKeys t kid cur lk lines).isSome = true := by
  intro lines
  induction lines with
  | nil =>
    intro cur lk e hm
    simp [acceptedRecs] at hm
  | cons l ls ih =>
    intro cur lk e hm
    by_cases hb : (isUidLine l && optStrTruthy lk) = true
    · have huid : isUidLine l = true := by
        have := hb
        simp [Bool.and_eq_true] at this
        exact this.1
      rw [acceptedRecs_cons_none t l ls (isUid_secAccept t l huid)] at hm
      rw [projKeys_cons_true t kid cur lk l ls hb]
      exact ih _ _ _ hm
    · have hb2 : (isUidLine l && optStrTruthy lk) = false := by
        revert hb
        cases (isUidLine l && optStrTruthy lk) <;> simp
      rw [projKeys_cons_false t kid cur lk l ls hb2]
      cases hsa : secAccept t l with
      | none =>
        rw [acceptedRecs_cons_none t l ls hsa] at hm
        simp only [hsa]
        exact ih _ _ _ hm
      | some p =>
        obtain ⟨k', e'⟩ := p
        rw [acceptedRecs_cons_some t l ls _ hsa] at hm
        simp only [hsa]
        rcases List.mem_cons.mp hm with h1 | h1
        · have hk : k' = kid := by
            cases h1
            rfl
          rw [if_pos hk]
          exact projKeys_some_of_some t kid ls _ _
        · by_cases hk : k' = kid
          · rw [if_pos hk]
            exact projKeys_some_of_some t kid ls _ _
          · rw [if_neg hk]
            exact ih _ _ _ h1

theorem projKeys_expiry_frozen (t : Int) (kid : String) :
    ∀ (lines : List String) (kr₀ : KeyR) (lk : Option String),
      (∀ e, (kid, e) ∉ acceptedRecs t lines) →
      ∃ kr, projKeys t kid (some kr₀) lk lines = some kr ∧ kr.expiry = kr₀.expiry := by
  intro lines
  induction lines with
  | nil =>
    intro kr₀ lk _
    exact ⟨kr₀, rfl, rfl⟩
  | cons l ls ih =>
    intro kr₀ lk hno
    by_cases hb : (isUidLine l && optStrTruthy lk) = true
    · have huid : isUidLine l = true := by
        have := hb
        simp [Bool.and_eq_true] at this
        exact this.1
      have hno' : ∀ e, (kid, e) ∉ acceptedRecs t ls := by
        intro e
        have := hno e
        rwa [acceptedRecs_cons_none t l ls (isUid_secAccept t l huid)] at this
      rw [projKeys_cons_true t kid _ lk l ls hb]
      by_cases hk : lk = some kid
      · rw [if_pos hk]
        exact ih ⟨kr₀.expiry, some ((uidEmail? l).getD "")⟩ lk hno'
      · rw [if_neg hk]
        exact ih kr₀ lk hno'
    · have hb2 : (isUidLine l && optStrTruthy lk) = false := by
        revert hb
        cases (isUidLine l && optStrTruthy lk) <;> simp
      rw [projKeys_cons_false t kid _ lk l ls hb2]
      cases hsa : secAccept t l with
      | none =>
        have hno' : ∀ e, (kid, e) ∉ acceptedRecs t ls := by
          intro e
          have := hno e
          rwa [acceptedRecs_cons_none t l ls hsa] at this
        simp only [hsa]
        exact ih kr₀ lk hno'
      | some p =>
        obtain ⟨k', e'⟩ := p
        have hno' : ∀ e, (kid, e) ∉ acceptedRecs t ls := by
          intro e
          have := hno e
          rw [acceptedRecs_cons_some t l ls _ hsa] at this
          exact fun hc => this (List.mem_cons_of_mem _ hc)
        have hk : k' ≠ kid := by
          intro hc
          subst hc
          have := hno e'
          rw [acceptedRecs_cons_some t l ls _ hsa] at this
          exact this (List.mem_cons_self _ _)
        simp only [hsa]
        rw [if_neg hk]
        exact ih kr₀ (some k') hno'

theorem projKeys_acc_expiry (t : Int) (kid : String) (e : Int) :
    ∀ (lines : List String) (lk : Option String),
      (kid, e) ∈ acceptedRecs t lines →
      ((acceptedRecs t lines).map Prod.fst).Nodup →
      ∃ kr, projKeys t kid none lk lines = some kr ∧ kr.expiry = e := by
  intro lines
  induction lines with
  | nil =>
    intro lk hm _
    simp [acceptedRecs] at hm
  | cons l ls ih =>
    intro lk hm hnd
    by_cases hb : (isUidLine l && optStrTruthy lk) = true
    · have huid : isUidLine l = true := by
        have := hb
        simp [Bool.and_eq_true] at this
        exact this.1
      rw [acceptedRecs_cons_none t l ls (isUid_secAccept t l huid)] at hm hnd
      rw [projKeys_cons_true t kid _ lk l ls hb]
      by_cases hk : lk = some kid
      · rw [if_pos hk]
        exact ih lk hm hnd
      · rw [if_neg hk]
        exact ih lk hm hnd
    · have hb2 : (isUidLine l && optStrTruthy lk) = false := by
        revert hb
        cases (isUidLine l && optStrTruthy lk) <;> simp
      rw [projKeys_cons_false t kid _ lk l ls hb2]
      cases hsa : secAccept t l with
      | none =>
        rw [acceptedRecs_cons_none t l ls hsa] at hm hnd
        simp only [hsa]
        exact ih lk hm hnd
      | some p =>
        obtain ⟨k', e'⟩ := p
        rw [acceptedRecs_cons_some t l ls _ hsa] at hm hnd
        rw [List.map_cons] at hnd
        have hnd2 := List.nodup_cons.mp hnd
        simp only [hsa]
        by_cases hk : k' = kid
        · subst hk
          rw [if_pos rfl]
          have hnotail : ∀ e2, (k', e2) ∉ acceptedRecs t ls := by
            intro e2 hmem
            have : k' ∈ (acceptedRecs t ls).map Prod.fst :=
              List.mem_map.mpr ⟨(k', e2), hmem, rfl⟩
            exact hnd2.1 this
          have he : e = e' := by
            rcases List.mem_cons.mp hm with h1 | h1
            · cases h1
              rfl
            · exact absurd h1 (hnotail e)
          obtain ⟨kr, h1, h2⟩ := projKeys_expiry_frozen t k' ls ⟨e', none⟩ (some k') hnotail
          exact ⟨kr, h1, by rw [h2, he]⟩
        · rw [if_neg hk]
          have hm' : (kid, e) ∈ acceptedRecs t ls := by
            rcases List.mem_cons.mp hm with h1 | h1
            · cases h1
              exact absurd rfl hk
            · exact h1
          exact ih (some k') hm' hnd2.2

theorem projKeys_email (t : Int) (kid : String) :
    ∀ (lines : List String) (cur : Option KeyR) (lk : Option String),
      (lk = some kid → cur ≠ none) →
      (projKeys t kid cur lk lines).bind (fun kr => kr.email) =
        amendedEmailAux t kid lk (cur.bind (fun kr => kr.email)) lines := by
  intro lines
  induction lines with
  | nil =>
    intro cur lk _
    rfl
  | cons l ls ih =>
    intro cur lk hinv
    by_cases hb : (isUidLine l && optStrTruthy lk) = true
    · rw [projKeys_cons_true t kid cur lk l ls hb, amendedEmailAux_cons_true t kid lk _ l ls hb]
      by_cases hk : lk = some kid
      · rw [if_pos hk, if_pos hk]
        cases hcur : cur with
        | none => exact absurd hcur (hinv hk)
        | some kr₀ =>
          exact ih _ lk (fun _ => by simp)
      · rw [if_neg hk, if_neg hk]
        exact ih cur lk hinv
    · have hb2 : (isUidLine l && optStrTruthy lk) = false := by
        revert hb
        cases (isUidLine l && optStrTruthy lk) <;> simp
      rw [projKeys_cons_false t kid cur lk l ls hb2,
        amendedEmailAux_cons_false t kid lk _ l ls hb2]
      cases hsa : secAccept t l with
      | none =>
        simp only [hsa]
        exact ih cur lk hinv
      | some p =>
        obtain ⟨k', e'⟩ := p
        simp only [hsa]
        by_cases hk : k' = kid
        · rw [if_pos hk, if_pos hk]
          exact ih (some ⟨e', none⟩) (some k') (fun _ => by simp)
        · rw [if_neg hk, if_neg hk]
          exact ih cur (some k') (fun hc => absurd (Option.some.inj hc) hk)

theorem processLines_nodup (t : Int) :
    ∀ (lines : List String) (st st' : PickState),
      processLines t st lines = .ok st' →
      (st.keys.map Prod.fst).Nodup → (st'.keys.map Prod.fst).Nodup := by
  intro lines
  induction lines with
  | nil =>
    intro st st' h hnd
    cases h
    exact hnd
  | cons l ls ih =>
    intro st st' h hnd
    rw [processLines] at h
    cases hp : processLine t st l with
    | error e => rw [hp] at h; exact Except.noConfusion h
    | ok st₁ =>
      rw [hp] at h
      refine ih _ _ h ?_
      rcases processLine_ok_cases t st l st₁ hp with
        ⟨_, _, kid, em, _, _, _, hk1, _⟩ | ⟨_, _, hk1, _⟩ | ⟨_, kid, e, _, hk1, _⟩
      · rw [hk1, aupd_map_fst]
        exact hnd
      · rw [hk1]
        exact hnd
      · rw [hk1]
        exact aset_nodup st.keys kid _ hnd

theorem processLine_error_ne (t : Int) (st : PickState) (l : String) (e : Exc)
    (h : processLine t st l = .error e) : e ≠ Exc.keyNotFound := by
  unfold processLine at h
  split at h
  next =>
    split at h
    next =>
      cases h
      decide
    next kid heq =>
      split at h
      next =>
        cases h
        decide
      next em hue =>
        split at h
        next => exact Except.noConfusion h
        next =>
          cases h
          decide
  next =>
    split at h
    next => exact Except.noConfusion h
    next =>
      split at h
      next =>
        cases h
        decide
      next kid exS hsf =>
        split at h
        next =>
          cases h
          decide
        next ex hpf =>
          split at h
          next => exact Except.noConfusion h
          next => exact Except.noConfusion h

theorem processLines_error_ne (t : Int) :
    ∀ (lines : List String) (st : PickState) (e : Exc),
      processLines t st lines = .error e → e ≠ Exc.keyNotFound := by
  intro lines
  induction lines with
  | nil =>
    intro st e h
    exact Except.noConfusion h
  | cons l ls ih =>
    intro st e h
    rw [processLines] at h
    cases hp : processLine t st l with
    | error e' =>
      rw [hp] at h
      cases h
      exact processLine_error_ne t st l e hp
    | ok st₁ =>
      rw [hp] at h
      exact ih st₁ e h

theorem pyMinFold_mem (xs : KeysAssoc) :
    ∀ (b : String × KeyR), pyMinFold b xs = b ∨ pyMinFold b xs ∈ xs := by
  induction xs with
  | nil =>
    intro b
    exact Or.inl rfl
  | cons x xs ih =>
    intro b
    rw [pyMinFold]
    rcases ih (if x.2.expiry < b.2.expiry then x else b) with h | h
    · rw [h]
      by_cases hc : x.2.expiry < b.2.expiry
      · rw [if_pos hc]
        exact Or.inr (List.mem_cons_self _ _)
      · rw [if_neg hc]
        exact Or.inl rfl
    · exact Or.inr (List.mem_cons_of_mem _ h)

theorem pyMinFold_le (xs : KeysAssoc) :
    ∀ (b : String × KeyR),
      (pyMinFold b xs).2.expiry ≤ b.2.expiry ∧
      ∀ y ∈ xs, (pyMinFold b xs).2.expiry ≤ y.2.expiry := by
  induction xs with
  | nil =>
    intro b
    exact ⟨le_refl _, by simp⟩
  | cons x xs ih =>
    intro b
    obtain ⟨h1, h2⟩ := ih (if x.2.expiry < b.2.expiry then x else b)
    rw [pyMinFold]
    constructor
    · refine le_trans h1 ?_
      by_cases hc : x.2.expiry < b.2.expiry
      · rw [if_pos hc]
        exact le_of_lt hc
      · rw [if_neg hc]
    · intro y hy
      rcases List.mem_cons.mp hy with h3 | h3
      · subst h3
        refine le_trans h1 ?_
        by_cases hc : y.2.expiry < b.2.expiry
        · rw [if_pos hc]
        · rw [if_neg hc]
          exact le_of_not_lt hc
      · exact h2 y h3

theorem acceptedRecs_ge (t : Int) (lines : List String) (p : String × Int)
    (h : p ∈ acceptedRecs t lines) : 24 * 60 * 60 ≤ p.2 := by
  rcases List.mem_filterMap.mp h with ⟨l, _, hsa⟩
  unfold secAccept at hsa
  split at hsa
  · split at hsa
    next kid exS hsf =>
      split at hsa
      next ex hpf =>
        split at hsa
        next => exact Option.noConfusion hsa
        next hlt =>
          cases hsa
          simp only []
          omega
      next => exact Option.noConfusion hsa
    next => exact Option.noConfusion hsa
  · exact Option.noConfusion hsa
theorem pyMinKeys_spec (ks : KeysAssoc) (kid : String) (kr : KeyR)
    (h : pyMinKeys ks = some (kid, kr)) :
    (kid, kr) ∈ ks ∧ ∀ y ∈ ks, kr.expiry ≤ y.2.expiry := by
  cases ks with
  | nil => exact Option.noConfusion h
  | cons x xs =>
    rw [pyMinKeys] at h
    have hf := Option.some.inj h
    constructor
    · rw [← hf]
      rcases pyMinFold_mem xs x with h1 | h1
      · rw [h1]
        exact List.mem_cons_self _ _
      · exact List.mem_cons_of_mem _ h1
    · intro y hy
      obtain ⟨h1, h2⟩ := pyMinFold_le xs x
      have hle : (pyMinFold x xs).2.expiry ≤ y.2.expiry := by
        rcases List.mem_cons.mp hy with h3 | h3
        · rw [h3]
          exact h1
        · exact h2 y h3
      rw [hf] at hle
      exact hle

theorem pickGpgKey_ok_inv (keylist : String) (t : Int) (k : Key)
    (h : pickGpgKey keylist t = .ok k) :
    ∃ st kr, processLines t ⟨[], none⟩ (keylines keylist) = .ok st ∧
      pyMinKeys st.keys = some (k.keyid, kr) ∧ k.expiry = kr.expiry ∧ k.email = kr.email := by
  unfold pickGpgKey at h
  split at h
  next e heq => exact Except.noConfusion h
  next st heq =>
    split at h
    next heq2 => exact Except.noConfusion h
    next kid kr heq2 =>
      cases h
      exact ⟨st, kr, heq, heq2, rfl, rfl⟩

theorem pickGpgKey_keyNotFound_inv (keylist : String) (t : Int)
    (h : pickGpgKey keylist t = .error Exc.keyNotFound) :
    ∃ st, processLines t ⟨[], none⟩ (keylines keylist) = .ok st ∧ pyMinKeys st.keys = none := by
  unfold pickGpgKey at h
  split at h
  next e heq =>
    cases h
    exact absurd rfl (processLines_error_ne t _ _ _ heq)
  next st heq =>
    split at h
    next heq2 => exact ⟨st, heq, heq2⟩
    next kid kr heq2 => exact Except.noConfusion h

theorem pickGpgKey_keyNotFound_intro (keylist : String) (t : Int) (st : PickState)
    (hpl : processLines t ⟨[], none⟩ (keylines keylist) = .ok st)
    (hmin : pyMinKeys st.keys = none) :
    pickGpgKey keylist t = .error Exc.keyNotFound := by
  unfold pickGpgKey
  simp only [hpl, hmin]

/-- Claim C1, amended: on a listing whose qualifying secret-key records
carry pairwise distinct key ids, _pick_gpg_key considers only secret-key
records with remaining lifetime at least 24 hours, returns the qualifying
key with the smallest remaining lifetime, raises KeyNotFoundError exactly
when the listing processes without error and no record qualifies, and the
email carried by the returned key is the one of the most recent identity
record seen while that key was the most recently accepted one - which, when
a non-qualifying secret-key record intervenes, may be an identity record of
that rejected key rather than of the returned key itself. -/
theorem pick_gpg_key_selection (keylist : String) (t : Int)
    (hnodup : ((acceptedRecs t (keylines keylist)).map Prod.fst).Nodup) :
    (∀ k, pickGpgKey keylist t = .ok k →
      (k.keyid, k.expiry) ∈ acceptedRecs t (keylines keylist) ∧
      24 * 60 * 60 ≤ k.expiry ∧
      (∀ p ∈ acceptedRecs t (keylines keylist), k.expiry ≤ p.2) ∧
      k.email = amendedEmail t keylist k.keyid) ∧
    (pickGpgKey keylist t = .error Exc.keyNotFound ↔
      (∃ st, processLines t ⟨[], none⟩ (keylines keylist) = .ok st) ∧
      acceptedRecs t (keylines keylist) = []) := by
  constructor
  · intro k hk
    obtain ⟨st, kr, hpl, hmin, hke, hkm⟩ := pickGpgKey_ok_inv keylist t k hk
    have hproj := processLines_proj t (keylines keylist) _ _ hpl
    have hnd : (st.keys.map Prod.fst).Nodup :=
      processLines_nodup t _ _ _ hpl (by simp)
    obtain ⟨hmem, hminle⟩ := pyMinKeys_spec st.keys k.keyid kr hmin
    have hlook : alookupK st.keys k.keyid = some kr := mem_alookupK st.keys k.keyid kr hnd hmem
    have hpj : projKeys t k.keyid none none (keylines keylist) = some kr := by
      have h2 := hproj.2 k.keyid
      rw [hlook] at h2
      exact h2.symm
    have hmemacc : (k.keyid, k.expiry) ∈ acceptedRecs t (keylines keylist) := by
      rw [hke]
      rcases projKeys_expiry_src t k.keyid _ none none kr hpj with ⟨kr₀, hc, _⟩ | hm
      · exact Option.noConfusion hc
      · exact hm
    refine ⟨hmemacc, by have := acceptedRecs_ge t _ _ hmemacc; simpa using this, ?_, ?_⟩
    · intro p hp
      obtain ⟨kid2, e⟩ := p
      obtain ⟨kr2, hpj2, he2⟩ := projKeys_acc_expiry t kid2 e (keylines keylist) none hp hnodup
      have hlk2 : alookupK st.keys kid2 = some kr2 := by
        rw [hproj.2 kid2]
        exact hpj2
      have hmem2 : (kid2, kr2) ∈ st.keys := alookupK_mem _ _ _ hlk2
      have := hminle (kid2, kr2) hmem2
      rw [hke]
      simpa [he2] using this
    · have hpe := projKeys_email t k.keyid (keylines keylist) none none
        (fun hc => Option.noConfusion hc)
      rw [hpj] at hpe
      rw [hkm]
      exact hpe
  · constructor
    · intro h
      obtain ⟨st, hpl, hmin⟩ := pickGpgKey_keyNotFound_inv keylist t h
      refine ⟨⟨st, hpl⟩, ?_⟩
      cases hacc : acceptedRecs t (keylines keylist) with
      | nil => rfl
      | cons q qs =>
        obtain ⟨kid2, e⟩ := q
        have hmemq : (kid2, e) ∈ acceptedRecs t (keylines keylist) := by
          rw [hacc]
          exact List.mem_cons_self _ _
        have hsome := projKeys_some_of_mem t kid2 (keylines keylist) none none e hmemq
        have hproj := processLines_proj t (keylines keylist) _ _ hpl
        have hlsome : (alookupK st.keys kid2).isSome = true := by
          rw [hproj.2 kid2]
          exact hsome
        cases hks : st.keys with
        | nil =>
          rw [hks] at hlsome
          simp [alookupK] at hlsome
        | cons x xs =>
          rw [hks, pyMinKeys] at hmin
          exact Option.noConfusion hmin
    · rintro ⟨⟨st, hpl⟩, hacc⟩
      have hempty : st.keys = [] := by
        cases hks : st.keys with
        | nil => rfl
        | cons x xs =>
          obtain ⟨k0, v0⟩ := x
          have hl : alookupK st.keys k0 = some v0 := by
            rw [hks]
            simp [alookupK]
          have hproj := processLines_proj t (keylines keylist) _ _ hpl
          have hpj : projKeys t k0 none none (keylines keylist) = some v0 := by
            have h2 := hproj.2 k0
            rw [hl] at h2
            exact h2.symm
          rcases projKeys_expiry_src t k0 _ none none v0 hpj with ⟨kr₀, hc, _⟩ | hm
          · exact Option.noConfusion hc
          · rw [hacc] at hm
            simp at hm
      refine pickGpgKey_keyNotFound_intro keylist t st hpl ?_
      rw [hempty]
      rfl

/-- A listing with two qualifying keys at reference time 1000000: KEYA with
200000 seconds remaining and KEYC with 100000 seconds remaining, each
followed by its identity record. -/
def twoKeyListing : String :=
  "sec:u:4096:1:KEYA:1:1200000::\nuid:u::::1::X::A <a@example.com>:\nsec:u:4096:1:KEYC:1:1100000::\nuid:u::::1::X::C <c@example.com>:"

/-- Witness for the amended claim C1 theorem at the concrete two-key
listing: the returned key is the qualifying key with the smaller remaining
lifetime and carries the email attributed by amendedEmail. -/
theorem pick_gpg_key_selection_witness :
    ("KEYC", (100000 : Int)) ∈ acceptedRecs 1000000 (keylines twoKeyListing) ∧
    (24 * 60 * 60 : Int) ≤ 100000 ∧
    (∀ p ∈ acceptedRecs 1000000 (keylines twoKeyListing), (100000 : Int) ≤ p.2) ∧
    some "c@example.com" = amendedEmail 1000000 twoKeyListing "KEYC" := by
  have h := (pick_gpg_key_selection twoKeyListing 1000000 (by decide)).1
    ⟨"KEYC", 100000, some "c@example.com"⟩ (by decide)
  exact ⟨h.1, h.2.1, h.2.2.1, h.2.2.2⟩

/-- A listing where the qualifying key KEYA is followed by its identity
record, then by the non-qualifying (expired) key KEYB and the identity
record of KEYB. -/
def misattribListing : String :=
  "sec:u:4096:1:KEYA:1:1200000::\nuid:u::::1::X::A <a@example.com>:\nsec:e:4096:1:KEYB:1:1000100::\nuid:e::::1::X::B <b@example.com>:"

/-- Claim C1, counterexample to the original claim: at reference time
1000000 the selection returns KEYA (the only qualifying key) but carries
the email of the identity record of the rejected key KEYB, while the
identity record associated with KEYA itself carries a different address. -/
theorem pick_gpg_key_email_counterexample :
    pickGpgKey misattribListing 1000000 = .ok ⟨"KEYA", 200000, some "b@example.com"⟩ ∧
    associatedEmailSpec (keylines misattribListing) "KEYA" = some "a@example.com" ∧
    ¬ pickGpgKey misattribListing 1000000 = .ok ⟨"KEYA", 200000,
        associatedEmailSpec (keylines misattribListing) "KEYA"⟩ := by
  exact ⟨by decide, by decide, by decide⟩

/-- A scalar value of the flattened take-response mapping: wanna-build
fields arrive as YAML strings or integers (binNMU). -/
inductive FVal where
  | s (v : String)
  | i (v : Int)
deriving DecidableEq

/-- Python str() formatting as used by "+b{}".format(binnmu). -/
def FVal.format : FVal → String
  | .s v => v
  | .i v => toString v

/-- Python truthiness of a field value (if self.binnmu:). -/
def FVal.truthy : FVal → Bool
  | .s v => !(v == "")
  | .i v => !(v == 0)

/-- Lookup in the flattened field mapping. -/
def alookupF : List (String × FVal) → String → Option FVal
  | [], _ => none
  | e :: es, k => if e.1 = k then some e.2 else alookupF es k

/-- The Package value built by Package.__init__ (buildd.py lines 48-96):
the identifiers derived once at construction from the take-response
fields.  The builder back-reference is omitted; the scalar fields pkg-ver,
archive, arch and suite are required strings of the wanna-build protocol. -/
structure Package where
  name : String
  source_package : String
  source_version : String
  epochless_source_version : String
  archive : String
  architecture : String
  distribution : String
  build_dep_resolver : Option FVal
  mail_logs : Option FVal
  binnmu : Option FVal
  binnmu_changelog : Option FVal
  extra_depends : Option FVal
  extra_conflicts : Option FVal
  binary_version : String
  epochless_binary_version : String
  source_package_version : String
  source_package_binary_version : String
  changes_file : String
deriving DecidableEq

/-- Required string field access fields[k]: KeyError when missing,
TypeError marks a non-string scalar where the code performs string
operations or string concatenation downstream. -/
def getStrField (fields : List (String × FVal)) (k : String) : Except Exc String :=
  match alookupF fields k with
  | some (.s v) => .ok v
  | some (.i _) => .error Exc.typeError
  | none => .error Exc.keyError

/-- The binNMU version suffix: "+b{}".format(binnmu) appended only when the
binnmu field is present and truthy. -/
def binnmuSuffix : Option FVal → String
  | some v => if v.truthy then "+b" ++ v.format else ""
  | none => ""

/-- Package.__init__ (buildd.py lines 67-93): splits pkg-ver on the first
underscore into source package and source version (ValueError unless the
split yields exactly two parts), strips the epoch by taking element 1 of
source_version.split(":") when a colon is present, copies the remaining
fields through the field map, and derives the binary versions, the
source_package_version / source_package_binary_version identifiers and the
changes file name. -/
def mkPackage (name : String) (fields : List (String × FVal)) : Except Exc Package :=
  match getStrField fields "pkg-ver" with
  | .error e => .error e
  | .ok pkgver =>
    match pySplitC pkgver '_' (some 2) with
    | [sp, sv] =>
      match getStrField fields "archive", getStrField fields "arch",
          getStrField fields "suite" with
      | .ok archive, .ok arch, .ok dist =>
        let esv := if sv.data.contains ':' then ((pySplitC sv ':' none).get? 1).getD "" else sv
        let binnmu := alookupF fields "binNMU"
        let suffix := binnmuSuffix binnmu
        let bv := sv ++ suffix
        let ebv := esv ++ suffix
        .ok
          { name := name
            source_package := sp
            source_version := sv
            epochless_source_version := esv
            archive := archive
            architecture := arch
            distribution := dist
            build_dep_resolver := alookupF fields "build_dep_resolver"
            mail_logs := alookupF fields "mail_logs"
            binnmu := binnmu
            binnmu_changelog := alookupF fields "extra-changelog"
            extra_depends := alookupF fields "extra-depends"
            extra_conflicts := alookupF fields "extra-conflicts"
            binary_version := bv
            epochless_binary_version := ebv
            source_package_version := sp ++ "_" ++ sv
            source_package_binary_version := sp ++ "_" ++ bv
            changes_file := sp ++ "_" ++ ebv ++ "_" ++ arch ++ ".changes" }
      | .error e, _, _ => .error e
      | _, .error e, _ => .error e
      | _, _, .error e => .error e
    | _ => .error Exc.valueError

/-- Epoch stripping as the spec words it: the epoch is the "N:" prefix of
the version, and the epochless version is the whole remainder after the
first colon (the version unchanged when it has no colon). -/
def stripEpochSpec (v : String) : String :=
  if v.data.contains ':' then String.mk (joinChar ':' ((splitChar ':' v.data).drop 1)) else v

/-- The take-response fields of the claimed concrete case: pkg-ver
chasquid_1:0.04-1 with binNMU 1 on amd64. -/
def chasquidFields : List (String × FVal) :=
  [("pkg-ver", .s "chasquid_1:0.04-1"), ("suite", .s "sid"), ("arch", .s "amd64"),
   ("archive", .s "debian"), ("binNMU", .i 1)]

/-- The Package that mkPackage builds from chasquidFields. -/
def chasquidPackage : Package :=
  { name := "chasquid"
    source_package := "chasquid"
    source_version := "1:0.04-1"
    epochless_source_version := "0.04-1"
    archive := "debian"
    architecture := "amd64"
    distribution := "sid"
    build_dep_resolver := none
    mail_logs := none
    binnmu := some (.i 1)
    binnmu_changelog := none
    extra_depends := none
    extra_conflicts := none
    binary_version := "1:0.04-1+b1"
    epochless_binary_version := "0.04-1+b1"
    source_package_version := "chasquid_1:0.04-1"
    source_package_binary_version := "chasquid_1:0.04-1+b1"
    changes_file := "chasquid_0.04-1+b1_amd64.changes" }

/-- Fields exhibiting the two divergences of claim C2: a source version
with a second colon and a binNMU field that is set to 0. -/
def epochCounterFields : List (String × FVal) :=
  [("pkg-ver", .s "pkg_1:2:3-1"), ("suite", .s "sid"), ("arch", .s "amd64"),
   ("archive", .s "debian"), ("binNMU", .i 0)]

/-- The Package that mkPackage builds from epochCounterFields. -/
def epochCounterPackage : Package :=
  { name := "pkg"
    source_package := "pkg"
    source_version := "1:2:3-1"
    epochless_source_version := "2"
    archive := "debian"
    architecture := "amd64"
    distribution := "sid"
    build_dep_resolver := none
    mail_logs := none
    binnmu := some (.i 0)
    binnmu_changelog := none
    extra_depends := none
    extra_conflicts := none
    binary_version := "1:2:3-1"
    epochless_binary_version := "2"
    source_package_version := "pkg_1:2:3-1"
    source_package_binary_version := "pkg_1:2:3-1"
    changes_file := "pkg_2_amd64.changes" }

/-- Claim C2, counterexample to the general statement: for source version
"1:2:3-1" the code stores "2" as the epochless version although the version
without the epoch is "2:3-1", and although binNMU is set (to 0) no "+b0"
suffix is appended to the binary version. -/
theorem package_version_counterexample :
    mkPackage "pkg" epochCounterFields = .ok epochCounterPackage ∧
    epochCounterPackage.epochless_source_version ≠
      stripEpochSpec epochCounterPackage.source_version ∧
    (alookupF epochCounterFields "binNMU").isSome = true ∧
    epochCounterPackage.binary_version = epochCounterPackage.source_version := by
  exact ⟨by decide, by decide, by decide, by decide⟩

/-- Claim C2, amended: all identifiers are derived once at construction:
binary_version is source_version with "+bN" appended exactly when binnmu is
set to a truthy value, epochless_binary_version is likewise derived from
epochless_source_version, epochless_source_version is the segment of
source_version between the first and the second colon when a colon is
present (which equals epoch stripping whenever the version has at most one
colon), changes_file is source_package _ epochless_binary_version _
architecture .changes, and the concrete case of the claim holds:
chasquid_1:0.04-1 with binNMU 1 on amd64 yields exactly the claimed five
identifiers. -/
theorem package_version_derivation :
    (∀ name fields p, mkPackage name fields = .ok p →
      p.binary_version = p.source_version ++ binnmuSuffix (alookupF fields "binNMU") ∧
      p.epochless_binary_version =
        p.epochless_source_version ++ binnmuSuffix (alookupF fields "binNMU") ∧
      p.epochless_source_version =
        (if p.source_version.data.contains ':' then
          ((pySplitC p.source_version ':' none).get? 1).getD ""
         else p.source_version) ∧
      p.source_package_binary_version = p.source_package ++ "_" ++ p.binary_version ∧
      p.changes_file =
        p.source_package ++ "_" ++ p.epochless_binary_version ++ "_" ++
          p.architecture ++ ".changes") ∧
    mkPackage "chasquid" chasquidFields = .ok chasquidPackage ∧
    chasquidPackage.source_version = "1:0.04-1" ∧
    chasquidPackage.epochless_source_version = "0.04-1" ∧
    chasquidPackage.binary_version = "1:0.04-1+b1" ∧
    chasquidPackage.epochless_binary_version = "0.04-1+b1" ∧
    chasquidPackage.changes_file = "chasquid_0.04-1+b1_amd64.changes" := by
  constructor
  · intro name fields p h
    unfold mkPackage at h
    split at h
    next => exact Except.noConfusion h
    next pkgver heq =>
      split at h
      next sp sv heq2 =>
        split at h
        next archive arch dist h1 h2 h3 =>
          cases h
          exact ⟨rfl, rfl, rfl, rfl, rfl⟩
        next => exact Except.noConfusion h
        next => exact Except.noConfusion h
        next => exact Except.noConfusion h
      next => exact Except.noConfusion h
  · exact ⟨by decide, by decide, by decide, by decide, by decide, by decide⟩

/-- Witness for the amended claim C2 theorem: the general derivation
applied to the concrete chasquid package. -/
theorem package_version_derivation_witness :
    chasquidPackage.binary_version =
      chasquidPackage.source_version ++ binnmuSuffix (alookupF chasquidFields "binNMU") ∧
    chasquidPackage.changes_file =
      chasquidPackage.source_package ++ "_" ++ chasquidPackage.epochless_binary_version ++
        "_" ++ chasquidPackage.architecture ++ ".changes" := by
  have h := package_version_derivation.1 "chasquid" chasquidFields chasquidPackage
    package_version_derivation.2.1
  exact ⟨h.1, h.2.2.2.2⟩

/-- Dictionary assignment for the flattened take-response data mapping. -/
def fsetF : List (String × FVal) → String → FVal → List (String × FVal)
  | [], k, v => [(k, v)]
  | e :: es, k, v => if e.1 = k then (k, v) :: es else e :: fsetF es k v

/-- One YAML descriptor: an ordered list of single-field mappings. -/
abbrev Descriptor := List (List (String × FVal))

/-- A parsed take response: the YAML document list, whose first element
maps the source package name to its descriptor. -/
abbrev TakeResp := List (List (String × Descriptor))

/-- The data-dict flattening loop of _parse_take_response. -/
def flattenDescriptor (d : Descriptor) : List (String × FVal) :=
  d.foldl (fun data elem => elem.foldl (fun data2 kv => fsetF data2 kv.1 kv.2) data) []

/-- Builder._parse_take_response (buildd.py lines 198-213) on the parsed
YAML document (the yaml library is external): takes the first item of the
first document, flattens its descriptor into one mapping, returns None when
the status field differs from the string ok (a lost take race), and
otherwise builds the Package.  IndexError models response[0] on an empty
document list, NameError the undefined data variable on an empty mapping,
KeyError the missing status field. -/
def parseTakeResponse (resp : TakeResp) : Except Exc (Option Package) :=
  match resp with
  | [] => .error Exc.indexError
  | doc :: _ =>
    match doc with
    | [] => .error Exc.nameError
    | (sp, descriptor) :: _ =>
      let data := flattenDescriptor descriptor
      match alookupF data "status" with
      | none => .error Exc.keyError
      | some v =>
        if v = FVal.s "ok" then (mkPackage sp data).map some else .ok none

/-- Builder._take (buildd.py lines 215-219): splits the pending line on
spaces (maxsplit 2) into the arch/dist/pkg-ver triple and the priority
field (ValueError unless exactly two parts result), splits the triple on
slashes (ValueError unless exactly three parts), and parses the take
response; takeQ models the remote take query, already parsed by the
external yaml library. -/
def pyTake (takeQ : String → String → String → TakeResp) (line : String) :
    Except Exc (Option Package) :=
  match pySplitC line ' ' (some 2) with
  | [archdistpkgver, _] =>
    match pySplitC archdistpkgver '/' (some 3) with
    | [arch, dist, _pkgver] => parseTakeResponse (takeQ arch dist archdistpkgver)
    | _ => .error Exc.valueError
  | _ => .error Exc.valueError

/-- The inner architecture loop of Builder._get_next_wb for one
distribution; listQ models the needs-build list query response text. -/
def getNextWbArchs (listQ : String → String → String)
    (takeQ : String → String → String → TakeResp) (dist : String) :
    List String → Except Exc (Option Package)
  | [] => .ok none
  | arch :: rest =>
    if (pySplitC (listQ arch dist) '\n' none).headD "" = "" then
      getNextWbArchs listQ takeQ dist rest
    else
      match pyTake takeQ ((pySplitC (listQ arch dist) '\n' none).headD "") with
      | .error e => .error e
      | .ok (some p) => .ok (some p)
      | .ok none => getNextWbArchs listQ takeQ dist rest

/-- Builder._get_next_wb (buildd.py lines 221-240): iterates configured
distributions (outer) and architectures (inner) in order, skips a pair
whose pending response starts with an empty line, attempts the take of the
first candidate otherwise, and returns None only after every pair has been
tried without a successful take. -/
def getNextWb (dists archs : List String) (listQ : String → String → String)
    (takeQ : String → String → String → TakeResp) : Except Exc (Option Package) :=
  match dists with
  | [] => .ok none
  | d :: ds =>
    match getNextWbArchs listQ takeQ d archs with
    | .ok none => getNextWb ds archs listQ takeQ
    | r => r

/-- The configured (architecture, distribution) pairs in poll order:
distributions outer, architectures inner. -/
def pollPairs (dists archs : List String) : List (String × String) :=
  (dists.map (fun d => archs.map (fun a => (a, d)))).flatten

/-- Next-job selection as the spec words it: walk the configured pairs in
order, skip a pair whose pending list is empty, otherwise attempt the take
of the first candidate; stop at the first successful take and report
nothing to do only once the pairs are exhausted. -/
def firstSuccessfulTake (listQ : String → String → String)
    (takeQ : String → String → String → TakeResp) :
    List (String × String) → Except Exc (Option Package)
  | [] => .ok none
  | (arch, dist) :: rest =>
    if (pySplitC (listQ arch dist) '\n' none).headD "" = "" then
      firstSuccessfulTake listQ takeQ rest
    else
      match pyTake takeQ ((pySplitC (listQ arch dist) '\n' none).headD "") with
      | .error e => .error e
      | .ok (some p) => .ok (some p)
      | .ok none => firstSuccessfulTake listQ takeQ rest

theorem firstSuccessfulTake_append (listQ : String → String → String)
    (takeQ : String → String → String → TakeResp) :
    ∀ (xs ys : List (String × String)),
      firstSuccessfulTake listQ takeQ (xs ++ ys) =
        match firstSuccessfulTake listQ takeQ xs with
        | .ok none => firstSuccessfulTake listQ takeQ ys
        | r => r := by
  intro xs
  induction xs with
  | nil => intro ys; rfl
  | cons x xs ih =>
    intro ys
    obtain ⟨arch, dist⟩ := x
    simp only [List.cons_append, firstSuccessfulTake]
    by_cases hh : (pySplitC (listQ arch dist) '\n' none).headD "" = ""
    · rw [if_pos hh, if_pos hh]
      exact ih ys
    · rw [if_neg hh, if_neg hh]
      cases hpt : pyTake takeQ ((pySplitC (listQ arch dist) '\n' none).headD "") with
      | error e => rfl
      | ok op =>
        cases op with
        | none => exact ih ys
        | some p => rfl

theorem getNextWbArchs_eq (listQ : String → String → String)
    (takeQ : String → String → String → TakeResp) (dist : String) :
    ∀ archs, getNextWbArchs listQ takeQ dist archs =
      firstSuccessfulTake listQ takeQ (archs.map (fun a => (a, dist))) := by
  intro archs
  induction archs with
  | nil => rfl
  | cons a as ih =>
    simp only [List.map_cons, getNextWbArchs, firstSuccessfulTake]
    by_cases hh : (pySplitC (listQ a dist) '\n' none).headD "" = ""
    · rw [if_pos hh, if_pos hh]
      exact ih
    · rw [if_neg hh, if_neg hh]
      cases hpt : pyTake takeQ ((pySplitC (listQ a dist) '\n' none).headD "") with
      | error e => rfl
      | ok op =>
        cases op with
        | none => exact ih
        | some p => rfl

theorem getNextWb_eq (listQ : String → String → String)
    (takeQ : String → String → String → TakeResp) :
    ∀ (dists archs : List String),
      getNextWb dists archs listQ takeQ =
        firstSuccessfulTake listQ takeQ (pollPairs dists archs) := by
  intro dists
  induction dists with
  | nil => intro archs; rfl
  | cons d ds ih =>
    intro archs
    have ih2 := ih archs
    simp only [pollPairs, List.map_cons, List.flatten_cons] at ih2 ⊢
    rw [firstSuccessfulTake_append, ← getNextWbArchs_eq listQ takeQ d archs, ← ih2]
    rfl

/-- Claim C3: a take response whose status field is not ok parses to None
rather than an error, and the next-job poll equals the spec-side walk of
the ordered (architecture, distribution) pairs: distributions outer,
architectures inner, pairs with an empty pending list skipped, failed takes
passed over, and None only after every configured pair has been tried. -/
theorem take_race_and_poll_order :
    (∀ (sp : String) (descriptor : Descriptor) (restI : List (String × Descriptor))
        (restD : TakeResp) (v : FVal),
      alookupF (flattenDescriptor descriptor) "status" = some v →
      v ≠ FVal.s "ok" →
      parseTakeResponse (((sp, descriptor) :: restI) :: restD) = .ok none) ∧
    (∀ (dists archs : List String) (listQ : String → String → String)
        (takeQ : String → String → String → TakeResp),
      getNextWb dists archs listQ takeQ =
        firstSuccessfulTake listQ takeQ (pollPairs dists archs)) := by
  constructor
  · intro sp descriptor restI restD v hs hv
    unfold parseTakeResponse
    simp only [hs]
    rw [if_neg hv]
  · intro dists archs listQ takeQ
    exact getNextWb_eq listQ takeQ dists archs

/-- Witness for claim C3: the failed-take response of the repository tests
parses to None, and a concrete one-pair configuration agrees with the
spec-side poll order. -/
theorem take_race_and_poll_order_witness :
    parseTakeResponse [[("gobby", [[("status", FVal.s "not ok")],
      [("reason", FVal.s "is up-to-date in the archive")]])]] = .ok none ∧
    getNextWb ["sid"] ["amd64"] (fun _ _ => "") (fun _ _ _ => []) =
      firstSuccessfulTake (fun _ _ => "") (fun _ _ _ => [])
        (pollPairs ["sid"] ["amd64"]) := by
  constructor
  · exact take_race_and_poll_order.1 "gobby" _ [] []
      (FVal.s "not ok") (by decide) (by decide)
  · exact take_race_and_poll_order.2 ["sid"] ["amd64"] _ _

/-- One _query_wannabuild report call: architecture, distribution, and the
sub-command with its argument. -/
structure WBCall where
  architecture : String
  distribution : String
  command : List String
deriving DecidableEq

/-- Exit-status classification of Builder.build (buildd.py lines 295-303). -/
def buildVerdict (rc : Int) : String :=
  if rc = 0 then "built" else if rc = 2 then "attempted" else "give-back"

/-- Builder.build (buildd.py lines 287-309) given the exit status rc of the
external sbuild invocation: total in rc (a tool failure is never an
exception), always reports the verdict through wanna-build with the source
package name joined to the binary version, and returns True exactly for a
built package.  The sbuild command construction and the directory creation
are external side effects not needed by the claims. -/
def build (pkg : Package) (rc : Int) : WBCall × Bool :=
  (⟨pkg.architecture, pkg.distribution,
    ["--" ++ buildVerdict rc, pkg.source_package_binary_version]⟩,
   buildVerdict rc == "built")

/-- The module-level _ARCHIVE_TO_DUPLOAD_TARGET mapping (buildd.py lines
30-34). -/
def archiveToDuploadTarget : List (String × String) :=
  [("debian", "rsync-ftp-master"), ("debian-security", "rsync-security"),
   ("debian-ports", "rsync-ports")]

/-- Mapping lookup; none when the archive has no hardcoded target. -/
def lookupDuploadTarget (archive : String) : Option String :=
  match archiveToDuploadTarget.find? (fun e => e.1 == archive) with
  | some e => some e.2
  | none => none

/-- Builder._run_dupload (buildd.py lines 311-320) under its retry
decorator, modelled from the retrying-package parameters declared there:
up to stop_max_attempt_number = 3 attempts with a fixed wait_fixed =
120000 ms pause before each retried attempt; outcomes gives the success of
each attempt; the result is the number of attempts run, the waits between
them, and the final success. -/
def runDupload (outcomes : Nat → Bool) : Nat × List Nat × Bool :=
  if outcomes 0 then (1, [], true)
  else if outcomes 1 then (2, [120000], true)
  else if outcomes 2 then (3, [120000, 120000], true)
  else (3, [120000, 120000], false)

/-- Observable trace of Builder.upload: whether the unmapped-archive error
was logged, how many dupload attempts ran, the waits between them, the
wanna-build report calls made, and the Python-level result. -/
structure UploadTrace where
  errorLogged : Bool
  duploadAttempts : Nat
  waitsMs : List Nat
  reports : List WBCall
  result : Except Exc Unit
deriving DecidableEq

/-- Builder.upload (buildd.py lines 322-345): logs an error when the
archive is not in the mapping and then still performs the unguarded lookup,
raising KeyError before the try block, so no report of any kind is made;
otherwise runs dupload with the bounded retry, reports uploaded on success
and give-back on exhaustion, re-raising the CalledProcessError. -/
def upload (pkg : Package) (outcomes : Nat → Bool) : UploadTrace :=
  match lookupDuploadTarget pkg.archive with
  | none =>
    { errorLogged := true, duploadAttempts := 0, waitsMs := [], reports := [],
      result := .error Exc.keyError }
  | some _ =>
    match runDupload outcomes with
    | (n, ws, true) =>
      { errorLogged := false, duploadAttempts := n, waitsMs := ws,
        reports := [⟨pkg.architecture, pkg.distribution,
          ["--uploaded", pkg.source_package_binary_version]⟩],
        result := .ok () }
    | (n, ws, false) =>
      { errorLogged := false, duploadAttempts := n, waitsMs := ws,
        reports := [⟨pkg.architecture, pkg.distribution,
          ["--give-back", pkg.source_package_binary_version]⟩],
        result := .error Exc.calledProcessError }

/-- Builder._build_dir (buildd.py lines 249-252); home models
os.path.expanduser of the build root. -/
def buildDir (home : String) (pkg : Package) : String :=
  home ++ "/" ++ pkg.source_package ++ "_" ++ pkg.epochless_source_version

/-- shutil.rmtree on the filesystem modelled as the list of existing
paths: removes the directory and every path below it, raising when the
path does not exist. -/
def rmtree (fs : List String) (dir : String) : Except Exc (List String) :=
  if dir ∈ fs then
    .ok (fs.filter (fun p =>
      !(p == dir || List.take (dir.data.length + 1) p.data == (dir ++ "/").data)))
  else .error Exc.fileNotFound

/-- Builder.cleanup (buildd.py lines 347-349): removes the build directory
only when os.path.exists reports it. -/
def cleanup (fs : List String) (dir : String) : Except Exc (List String) :=
  if dir ∈ fs then rmtree fs dir else .ok fs

theorem cleanup_ok (fs : List String) (dir : String) :
    cleanup fs dir = .ok (if dir ∈ fs then
      fs.filter (fun p =>
        !(p == dir || List.take (dir.data.length + 1) p.data == (dir ++ "/").data))
      else fs) := by
  unfold cleanup rmtree
  by_cases h : dir ∈ fs
  · rw [if_pos h, if_pos h, if_pos h]
  · rw [if_neg h, if_neg h]

theorem not_mem_rmtree_filter (fs : List String) (dir : String) :
    dir ∉ fs.filter (fun p =>
      !(p == dir || List.take (dir.data.length + 1) p.data == (dir ++ "/").data)) := by
  intro hm
  have := List.mem_filter.mp hm
  simp at this

/-- Observable trace of one main-loop job handling: the build report,
whether the build succeeded, the upload trace when upload ran, the
filesystem after the finally-cleanup, and the Python-level result of the
try block. -/
structure JobTrace where
  buildReport : WBCall
  built : Bool
  uploadTrace : Option UploadTrace
  fsAfter : List String
  result : Except Exc Unit
deriving DecidableEq

/-- One main-loop job (buildd.py lines 391-396): try: if builder.build(pkg)
then builder.upload(pkg), finally: builder.cleanup(pkg).  The build
directory is created first (os.makedirs with exist_ok inside build), upload
runs only when build returned True, and cleanup runs on every path. -/
def handleJob (home : String) (pkg : Package) (rc : Int) (outcomes : Nat → Bool)
    (fs : List String) : JobTrace :=
  let dir := buildDir home pkg
  let fs1 := if dir ∈ fs then fs else fs ++ [dir]
  let b := build pkg rc
  if b.2 then
    let u := upload pkg outcomes
    match cleanup fs1 dir with
    | .ok fs2 => ⟨b.1, b.2, some u, fs2, u.result⟩
    | .error e => ⟨b.1, b.2, some u, fs1, .error e⟩
  else
    match cleanup fs1 dir with
    | .ok fs2 => ⟨b.1, b.2, none, fs2, .ok ()⟩
    | .error e => ⟨b.1, b.2, none, fs1, .error e⟩

theorem mem_makedirs (fs : List String) (dir : String) :
    dir ∈ (if dir ∈ fs then fs else fs ++ [dir]) := by
  by_cases h : dir ∈ fs
  · rwa [if_pos h]
  · rw [if_neg h]
    exact List.mem_append_right _ (List.mem_singleton.mpr rfl)

theorem handleJob_cleanup (home : String) (pkg : Package) (rc : Int)
    (outcomes : Nat → Bool) (fs : List String) :
    buildDir home pkg ∉ (handleJob home pkg rc outcomes fs).fsAfter := by
  unfold handleJob
  dsimp only
  split
  · split
    next fs2 heq =>
      rw [cleanup_ok, if_pos (mem_makedirs fs (buildDir home pkg))] at heq
      have h2 := Except.ok.inj heq
      simp only []
      rw [← h2]
      exact not_mem_rmtree_filter _ _
    next e heq =>
      rw [cleanup_ok, if_pos (mem_makedirs fs (buildDir home pkg))] at heq
      exact Except.noConfusion heq
  · split
    next fs2 heq =>
      rw [cleanup_ok, if_pos (mem_makedirs fs (buildDir home pkg))] at heq
      have h2 := Except.ok.inj heq
      simp only []
      rw [← h2]
      exact not_mem_rmtree_filter _ _
    next e heq =>
      rw [cleanup_ok, if_pos (mem_makedirs fs (buildDir home pkg))] at heq
      exact Except.noConfusion heq

theorem handleJob_uploadTrace (home : String) (pkg : Package) (rc : Int)
    (outcomes : Nat → Bool) (fs : List String) :
    (handleJob home pkg rc outcomes fs).uploadTrace =
      if (build pkg rc).2 then some (upload pkg outcomes) else none := by
  unfold handleJob
  dsimp only
  by_cases hb : (build pkg rc).2 = true
  · simp only [hb, if_true]
    split
    next => rfl
    next => rfl
  · have hb2 : (build pkg rc).2 = false := by
      revert hb
      cases (build pkg rc).2 <;> simp
    simp only [hb2]
    simp only [Bool.false_eq_true, if_false]
    split
    next => rfl
    next => rfl

/-- The result of _pick_gpg_key as seen by the is-None test in
Builder.builds: the function returns an actual Key object or raises, never
None. -/
def pickGpgKeyOpt (keylist : String) (t : Int) : Except Exc (Option Key) :=
  match pickGpgKey keylist t with
  | .error e => .error e
  | .ok k => .ok (some k)

/-- One revalidate-and-poll step of the Builder.builds iterator (buildd.py
lines 242-247): exceptions from key selection propagate out of the
generator; the ConfigurationError is raised only if key selection returned
None; otherwise the next-job poll result is yielded. -/
def buildsStep (keylist : String) (t : Int)
    (nextJob : Except Exc (Option Package)) : Except Exc (Option Package) :=
  match pickGpgKeyOpt keylist t with
  | .error e => .error e
  | .ok none => .error Exc.configurationError
  | .ok (some _) => nextJob

/-- Outcome of one main-loop iteration. -/
inductive StepOutcome where
  | exited
  | fatal (e : Exc)
  | idled (waited : Int)
  | ranJob (tr : JobTrace)
deriving DecidableEq

/-- The idle wait exit.wait(idle_sleep_time) guarded by the preceding
is_set check (buildd.py lines 387-388).  The early return of
threading.Event.wait is modelled from its documented semantics: an
already-set flag skips the wait entirely, a flag set after s seconds ends
the wait at min s timeout, and a flag never set sleeps the full timeout. -/
def idleWait (alreadySet : Bool) (setDuring : Option Int) (timeout : Int) : Int :=
  if alreadySet then 0
  else
    match setDuring with
    | none => timeout
    | some s => min s timeout

/-- One iteration of the main loop (buildd.py lines 370-396): break when
the shutdown flag is set at the top, propagate an exception from the job
iterator as fatal, wait on the shutdown event when the poll yields no job,
and otherwise run the job. -/
def mainLoopStep (exitAtTop : Bool) (next : Except Exc (Option Package))
    (exitBeforeWait : Bool) (setDuringWait : Option Int) (idleTime : Int)
    (home : String) (rc : Int) (outcomes : Nat → Bool) (fs : List String) :
    StepOutcome :=
  if exitAtTop then .exited
  else
    match next with
    | .error e => .fatal e
    | .ok none => .idled (idleWait exitBeforeWait setDuringWait idleTime)
    | .ok (some p) => .ranJob (handleJob home p rc outcomes fs)

/-- Claim C4: the build operation is total in the tool exit status (a tool
failure is never an exception); 0 reports built and only then does the
coordinator attempt the upload, 2 reports attempted, and any other exit
code - 7 among them - reports give-back; every verdict is reported with
the job architecture, distribution, and source package name joined to its
binary version. -/
theorem build_outcome_classification :
    ∀ (pkg : Package) (rc : Int) (home : String) (outcomes : Nat → Bool)
      (fs : List String),
      (build pkg rc).1 = ⟨pkg.architecture, pkg.distribution,
        ["--" ++ buildVerdict rc, pkg.source_package_binary_version]⟩ ∧
      buildVerdict 0 = "built" ∧ buildVerdict 2 = "attempted" ∧
      buildVerdict 7 = "give-back" ∧
      (rc ≠ 0 → rc ≠ 2 → buildVerdict rc = "give-back") ∧
      ((build pkg rc).2 = true ↔ rc = 0) ∧
      ((handleJob home pkg rc outcomes fs).uploadTrace.isSome = true ↔ rc = 0) := by
  intro pkg rc home outcomes fs
  have hiff : ((build pkg rc).2 = true) ↔ rc = 0 := by
    show ((buildVerdict rc == "built") = true) ↔ rc = 0
    rw [beq_iff_eq]
    constructor
    · intro hb
      by_contra h0
      have h2 : rc ≠ 2 := by
        intro hc
        rw [hc] at hb
        exact absurd hb (by decide)
      unfold buildVerdict at hb
      rw [if_neg h0, if_neg h2] at hb
      exact absurd hb (by decide)
    · intro h0
      rw [h0]
      rfl
  refine ⟨rfl, rfl, rfl, rfl, ?_, hiff, ?_⟩
  · intro h0 h2
    unfold buildVerdict
    rw [if_neg h0, if_neg h2]
  · rw [handleJob_uploadTrace]
    by_cases hb : (build pkg rc).2 = true
    · rw [if_pos hb]
      simpa using hiff.mp hb
    · have hb2 : (build pkg rc).2 = false := by
        revert hb
        cases (build pkg rc).2 <;> simp
      rw [if_neg (by rw [hb2]; exact Bool.false_ne_true)]
      constructor
      · intro hc
        exact absurd hc (by decide)
      · intro hc
        exact absurd (hiff.mpr hc) (by rw [hb2]; exact Bool.false_ne_true)

/-- Witness for claim C4: exit code 7 gives give-back, code 2 truncates to
no upload, code 0 uploads, on the concrete chasquid package. -/
theorem build_outcome_classification_witness :
    buildVerdict 7 = "give-back" ∧
    ((build chasquidPackage 7).2 = true ↔ (7 : Int) = 0) ∧
    ((handleJob "/home/buildd/build" chasquidPackage 2 (fun _ => false) []).uploadTrace.isSome
      = true ↔ (2 : Int) = 0) := by
  have h7 := build_outcome_classification chasquidPackage 7 "/home/buildd/build"
    (fun _ => false) []
  have h2 := build_outcome_classification chasquidPackage 2 "/home/buildd/build"
    (fun _ => false) []
  exact ⟨h7.2.2.2.2.1 (by decide) (by decide), h7.2.2.2.2.2.1, h2.2.2.2.2.2.2⟩

/-- Listing with a single key that is already expired at reference time
1000000. -/
def noUsableKeyListing : String := "sec:e:4096:1:KEYX:1:100::"

/-- Claim C5, counterexample: when the per-cycle revalidation finds no
valid key, the builds iterator step raises KeyNotFoundError, not the
ConfigurationError the claim names. -/
theorem builds_no_key_counterexample :
    buildsStep noUsableKeyListing 1000000 (.ok none) = .error Exc.keyNotFound ∧
    ¬ buildsStep noUsableKeyListing 1000000 (.ok none) = .error Exc.configurationError := by
  exact ⟨by decide, by decide⟩

/-- Claim C5, amended: the per-cycle signing-key revalidation is fatal
when no valid key exists, but through KeyNotFoundError: key selection
raises it, the builds step propagates it, and the main loop ends with it
as the fatal outcome; the ConfigurationError branch is unreachable because
_pick_gpg_key returns a key or raises, never None. -/
theorem builds_no_key_fatal :
    ∀ (keylist : String) (t : Int) (nj : Except Exc (Option Package))
      (eb : Bool) (sd : Option Int) (idle : Int) (home : String) (rc : Int)
      (outcomes : Nat → Bool) (fs : List String),
      (pickGpgKey keylist t = .error Exc.keyNotFound →
        buildsStep keylist t nj = .error Exc.keyNotFound ∧
        mainLoopStep false (buildsStep keylist t nj) eb sd idle home rc outcomes fs =
          .fatal Exc.keyNotFound) ∧
      pickGpgKeyOpt keylist t ≠ .ok none := by
  intro keylist t nj eb sd idle home rc outcomes fs
  constructor
  · intro hk
    have hstep : buildsStep keylist t nj = .error Exc.keyNotFound := by
      simp only [buildsStep, pickGpgKeyOpt, hk]
    exact ⟨hstep, by rw [hstep]; rfl⟩
  · intro hc
    unfold pickGpgKeyOpt at hc
    cases hpk : pickGpgKey keylist t with
    | error e =>
      rw [hpk] at hc
      exact Except.noConfusion hc
    | ok k =>
      rw [hpk] at hc
      exact Option.noConfusion (Except.ok.inj hc)

/-- Witness for the amended claim C5 theorem at the concrete expired-key
listing. -/
theorem builds_no_key_fatal_witness :
    buildsStep noUsableKeyListing 1000000 (.ok none) = .error Exc.keyNotFound ∧
    mainLoopStep false (buildsStep noUsableKeyListing 1000000 (.ok none)) false none 60
      "/home/buildd/build" 0 (fun _ => false) [] = .fatal Exc.keyNotFound := by
  exact (builds_no_key_fatal noUsableKeyListing 1000000 (.ok none) false none 60
    "/home/buildd/build" 0 (fun _ => false) []).1 (by decide)

/-- Claim C6: when dupload fails on all of the up to 3 attempts, with the
fixed two-minute wait between attempts, upload reports the job as
give-back with the source package name joined to the binary version,
re-raises the failure to its caller, and the coordinator still removes the
working directory before the next cycle. -/
theorem upload_retry_exhaustion :
    ∀ (pkg : Package) (outcomes : Nat → Bool) (home : String) (fs : List String)
      (target : String),
      lookupDuploadTarget pkg.archive = some target →
      (∀ i, outcomes i = false) →
      (upload pkg outcomes).duploadAttempts = 3 ∧
      (upload pkg outcomes).waitsMs = [120000, 120000] ∧
      (upload pkg outcomes).reports = [⟨pkg.architecture, pkg.distribution,
        ["--give-back", pkg.source_package_binary_version]⟩] ∧
      (upload pkg outcomes).result = .error Exc.calledProcessError ∧
      (handleJob home pkg 0 outcomes fs).uploadTrace = some (upload pkg outcomes) ∧
      (handleJob home pkg 0 outcomes fs).result = .error Exc.calledProcessError ∧
      buildDir home pkg ∉ (handleJob home pkg 0 outcomes fs).fsAfter := by
  intro pkg outcomes home fs target hmap hfail
  have hrd : runDupload outcomes = (3, [120000, 120000], false) := by
    unfold runDupload
    rw [hfail 0, hfail 1, hfail 2]
    rfl
  have hu : upload pkg outcomes =
      { errorLogged := false, duploadAttempts := 3, waitsMs := [120000, 120000],
        reports := [⟨pkg.architecture, pkg.distribution,
          ["--give-back", pkg.source_package_binary_version]⟩],
        result := .error Exc.calledProcessError } := by
    simp only [upload, hmap, hrd]
  have hb0 : (build pkg 0).2 = true := rfl
  have hut : (handleJob home pkg 0 outcomes fs).uploadTrace = some (upload pkg outcomes) := by
    rw [handleJob_uploadTrace, if_pos hb0]
  have hres : (handleJob home pkg 0 outcomes fs).result = .error Exc.calledProcessError := by
    unfold handleJob
    dsimp only
    rw [if_pos hb0]
    split
    next fs2 heq =>
      show (upload pkg outcomes).result = _
      rw [hu]
    next e heq =>
      rw [cleanup_ok, if_pos (mem_makedirs fs (buildDir home pkg))] at heq
      exact Except.noConfusion heq
  exact ⟨by rw [hu], by rw [hu], by rw [hu], by rw [hu], hut, hres,
    handleJob_cleanup home pkg 0 outcomes fs⟩

/-- Witness for claim C6 on the concrete chasquid package with an
always-failing transport. -/
theorem upload_retry_exhaustion_witness :
    (upload chasquidPackage (fun _ => false)).duploadAttempts = 3 ∧
    (upload chasquidPackage (fun _ => false)).waitsMs = [120000, 120000] ∧
    (upload chasquidPackage (fun _ => false)).result = .error Exc.calledProcessError ∧
    (handleJob "/home/buildd/build" chasquidPackage 0 (fun _ => false) []).result =
      .error Exc.calledProcessError ∧
    buildDir "/home/buildd/build" chasquidPackage ∉
      (handleJob "/home/buildd/build" chasquidPackage 0 (fun _ => false) []).fsAfter := by
  have h := upload_retry_exhaustion chasquidPackage (fun _ => false) "/home/buildd/build" []
    "rsync-ftp-master" (by decide) (fun i => rfl)
  exact ⟨h.1, h.2.1, h.2.2.2.1, h.2.2.2.2.2.1, h.2.2.2.2.2.2⟩

/-- Claim C7: for a job whose archive has no entry in the transport
mapping, upload logs an error and fails without ever invoking the
transport tool and without any retry. -/
theorem upload_unmapped_archive :
    ∀ (pkg : Package) (outcomes : Nat → Bool),
      lookupDuploadTarget pkg.archive = none →
      (upload pkg outcomes).errorLogged = true ∧
      (upload pkg outcomes).duploadAttempts = 0 ∧
      (upload pkg outcomes).waitsMs = [] ∧
      (upload pkg outcomes).result = .error Exc.keyError := by
  intro pkg outcomes hmap
  have hu : upload pkg outcomes =
      { errorLogged := true, duploadAttempts := 0, waitsMs := [], reports := [],
        result := .error Exc.keyError } := by
    simp only [upload, hmap]
  exact ⟨by rw [hu], by rw [hu], by rw [hu], by rw [hu]⟩

/-- A package whose archive name is absent from the transport mapping. -/
def unmappedArchivePackage : Package := { chasquidPackage with archive := "ubuntu" }

/-- Witness for claim C7 on a package with the unmapped archive ubuntu. -/
theorem upload_unmapped_archive_witness :
    (upload unmappedArchivePackage (fun _ => true)).errorLogged = true ∧
    (upload unmappedArchivePackage (fun _ => true)).duploadAttempts = 0 ∧
    (upload unmappedArchivePackage (fun _ => true)).result = .error Exc.keyError := by
  have h := upload_unmapped_archive unmappedArchivePackage (fun _ => true) (by decide)
  exact ⟨h.1, h.2.1, h.2.2.2⟩

/-- Claim C8: for an unmapped archive the KeyError of the unguarded
mapping lookup is raised after the error log but before the try block, so
upload reports no verdict at all - neither uploaded nor give-back - to the
queue. -/
theorem upload_unmapped_no_report :
    ∀ (pkg : Package) (outcomes : Nat → Bool),
      lookupDuploadTarget pkg.archive = none →
      (upload pkg outcomes).reports = [] ∧
      (upload pkg outcomes).result = .error Exc.keyError := by
  intro pkg outcomes hmap
  have hu : upload pkg outcomes =
      { errorLogged := true, duploadAttempts := 0, waitsMs := [], reports := [],
        result := .error Exc.keyError } := by
    simp only [upload, hmap]
  exact ⟨by rw [hu], by rw [hu]⟩

/-- Witness for claim C8 on the same unmapped-archive package with a
transport that would succeed if it were ever reached. -/
theorem upload_unmapped_no_report_witness :
    (upload unmappedArchivePackage (fun _ => false)).reports = [] ∧
    (upload unmappedArchivePackage (fun _ => false)).result = .error Exc.keyError := by
  exact upload_unmapped_no_report unmappedArchivePackage (fun _ => false) (by decide)

/-- Claim C9: cleanup checks existence before removal, so a missing
working directory is a no-op and no error; cleanup never raises, and a
second call after a successful removal is a no-op. -/
theorem cleanup_missing_noop_idempotent :
    ∀ (fs : List String) (dir : String),
      (dir ∉ fs → cleanup fs dir = .ok fs) ∧
      (∃ fs2, cleanup fs dir = .ok fs2) ∧
      (∀ fs2, cleanup fs dir = .ok fs2 → cleanup fs2 dir = .ok fs2) := by
  intro fs dir
  refine ⟨?_, ⟨_, cleanup_ok fs dir⟩, ?_⟩
  · intro h
    unfold cleanup
    rw [if_neg h]
  · intro fs2 h
    rw [cleanup_ok] at h
    have h2 := Except.ok.inj h
    by_cases hm : dir ∈ fs
    · rw [if_pos hm] at h2
      have hnm : dir ∉ fs2 := by
        rw [← h2]
        exact not_mem_rmtree_filter fs dir
      unfold cleanup
      rw [if_neg hnm]
    · rw [if_neg hm] at h2
      rw [← h2]
      unfold cleanup
      rw [if_neg hm]

/-- Witness for claim C9: a missing directory is untouched, and the second
call after removing the only directory is a no-op. -/
theorem cleanup_missing_noop_idempotent_witness :
    cleanup ["/home/b/build/a_1"] "/home/b/build/b_2" = .ok ["/home/b/build/a_1"] ∧
    cleanup [] "/home/b/build/b_2" = .ok [] := by
  have h1 := cleanup_missing_noop_idempotent ["/home/b/build/a_1"] "/home/b/build/b_2"
  have h2 := cleanup_missing_noop_idempotent ["/home/b/build/b_2"] "/home/b/build/b_2"
  exact ⟨h1.1 (by decide), h2.2.2 [] (by decide)⟩

/-- Claim C10: whenever the poll yields no job the coordinator waits on
the shutdown event for exactly the configured idle interval; a flag
already set at the guard skips the wait entirely, and a flag set s seconds
into the wait with s smaller than the interval ends the wait early. -/
theorem idle_wait_behavior :
    ∀ (eb : Bool) (sd : Option Int) (idle : Int) (home : String) (rc : Int)
      (outcomes : Nat → Bool) (fs : List String),
      mainLoopStep false (.ok none) eb sd idle home rc outcomes fs =
        .idled (idleWait eb sd idle) ∧
      (eb = false → sd = none → idleWait eb sd idle = idle) ∧
      (eb = true → idleWait eb sd idle = 0) ∧
      (∀ s, eb = false → sd = some s → idleWait eb sd idle = min s idle ∧
        (s < idle → idleWait eb sd idle < idle)) := by
  intro eb sd idle home rc outcomes fs
  refine ⟨rfl, ?_, ?_, ?_⟩
  · intro h1 h2
    rw [h1, h2]
    rfl
  · intro h1
    rw [h1]
    rfl
  · intro s h1 h2
    rw [h1, h2]
    constructor
    · rfl
    · intro hs
      show min s idle < idle
      exact lt_of_le_of_lt (min_le_left s idle) hs

/-- Witness for claim C10: a 60-second idle interval slept in full, the
wait skipped under an already-set flag, and an early return after 5 of 60
seconds. -/
theorem idle_wait_behavior_witness :
    mainLoopStep false (.ok none) false none 60 "/home/buildd/build" 0
      (fun _ => false) [] = .idled 60 ∧
    idleWait true (some 5) 60 = 0 ∧
    idleWait false (some 5) 60 = 5 := by
  have h1 := idle_wait_behavior false none 60 "/home/buildd/build" 0 (fun _ => false) []
  have h2 := idle_wait_behavior true (some 5) 60 "/home/buildd/build" 0 (fun _ => false) []
  have h3 := idle_wait_behavior false (some 5) 60 "/home/buildd/build" 0 (fun _ => false) []
  refine ⟨?_, h2.2.2.1 rfl, ?_⟩
  · have he := h1.2.1 rfl rfl
    rw [← he]
    exact h1.1
  · have he := (h3.2.2.2 5 rfl rfl).1
    rw [he]
    exact min_eq_left (by norm_num)
